import Mathlib

/-!
Shallow embedding of the Paperbot merge/dedup/rank pipeline
(`score_title`, `safe_year_to_int`, `merge_and_score`,
`add_abstracts_to_papers`, `guess_article_type` from
`MultiKeywords_test_v1.py`; the scoring and dedup code is identical in
`MultiAPI_test_v1.py`).  Python dicts are modelled as insertion-ordered
association lists, Python's stable `list.sort` as `List.mergeSort`,
Python string truthiness as an explicit predicate, and Python slicing
`l[:n]` (including negative `n`) as `pySlice`.
-/

/-- Models Python `str.lower()` (per-character lowering; ASCII-faithful). -/
def pyLower (s : String) : String :=
  ⟨s.data.map Char.toLower⟩

/-- Models Python's substring test `w in t` : `w` occurs contiguously in `t`. -/
def strContains (t w : String) : Bool :=
  (List.range (t.data.length + 1)).any (fun i => w.data.isPrefixOf (t.data.drop i))

/-- Chunking underlying Python `s.split()` : cut the character list at every
whitespace character (empty chunks arise at runs of whitespace). -/
def splitWsAux : List Char → List Char → List String
  | [], acc => [⟨acc.reverse⟩]
  | c :: cs, acc =>
      if c.isWhitespace then ⟨acc.reverse⟩ :: splitWsAux cs []
      else splitWsAux cs (c :: acc)

/-- Models Python `s.split()` : split on whitespace, dropping empty tokens. -/
def pySplitWs (s : String) : List String :=
  (splitWsAux s.data []).filter (fun w => decide (w ≠ ""))

/-- Models Python truthiness of an optional string (`None` and `""` are falsy). -/
def optTruthy (s : Option String) : Bool :=
  match s with
  | none => false
  | some t => decide (t ≠ "")

/-- Worker for `dedupFirst` : keep elements not yet in `seen`, in order. -/
def dedupFirstAux (seen : List String) : List String → List String
  | [] => []
  | a :: l =>
      if a ∈ seen then dedupFirstAux seen l
      else a :: dedupFirstAux (a :: seen) l

/-- Models Python `list(dict.fromkeys(l))` : drop duplicates keeping the first
occurrence of each element, preserving order. -/
def dedupFirst (l : List String) : List String :=
  dedupFirstAux [] l

/-- The common normalized record schema (one Python dict per paper). -/
structure Paper where
  title : Option String
  doi : Option String
  url : String
  authors : String
  year : String
  journal : String
  query : String
  source : String
  pmid : Option String
  abstract : Option String
  abstract_ja : Option String
  pub_types : Option (List String)
deriving DecidableEq, Repr

/-- `score_title` from the source: +2 if the whole lowercased query occurs in
the lowercased title, +1 per whitespace token of the query occurring in the
title.  A missing (`None`) title is treated as `""` (`(title or "").lower()`). -/
def score_title (title : Option String) (query : String) : Nat :=
  let t := pyLower (title.getD "")
  let q := pyLower query
  let base := if strContains t q then 2 else 0
  base + ((pySplitWs q).filter (fun w => strContains t w)).length

/-- Strip leading and trailing whitespace from a character list, as Python's
`int()` does before parsing. -/
def pyTrimChars (l : List Char) : List Char :=
  ((l.dropWhile Char.isWhitespace).reverse.dropWhile Char.isWhitespace).reverse

/-- Parse a nonempty all-digit character run as a natural number. -/
def natOfDigits (ds : List Char) : Option Nat :=
  if ds ≠ [] ∧ ds.all Char.isDigit then
    some (ds.foldl (fun n c => n * 10 + (c.toNat - '0'.toNat)) 0)
  else none

/-- Models Python `int(s)` for decimal strings: optional surrounding
whitespace, optional sign, then a nonempty digit run; `none` on anything
else (the branch the source maps to 0). -/
def pyInt? (s : String) : Option Int :=
  match pyTrimChars s.data with
  | '+' :: ds => (natOfDigits ds).map (fun n => (n : Int))
  | '-' :: ds => (natOfDigits ds).map (fun n => -(n : Int))
  | ds => (natOfDigits ds).map (fun n => (n : Int))

/-- `safe_year_to_int` from the source: `int(year_str)` with any parse failure
(e.g. the sentinel `"(n.d.)"`) mapped to 0. -/
def safe_year_to_int (year_str : String) : Int :=
  (pyInt? year_str).getD 0

/-- The dedup key computed inside `merge_and_score`: lowercased DOI when the
DOI is truthy and not the `"(no DOI)"` sentinel, otherwise the f-string of
lowercased title, an underscore, and the year. -/
def dedupKey (p : Paper) : String :=
  match p.doi with
  | some d =>
      if d ≠ "" ∧ d ≠ "(no DOI)" then pyLower d
      else pyLower (p.title.getD "") ++ "_" ++ p.year
  | none => pyLower (p.title.getD "") ++ "_" ++ p.year

/-- The `pub_types` union used both at merge time and at enrichment time:
`list(dict.fromkeys(old_types + new_types))`, with `None`/empty operands
treated as `[]` and the result left `None` when both are empty. -/
def mergeTypes (oldT newT : Option (List String)) : Option (List String) :=
  let o := oldT.getD []
  let n := newT.getD []
  if o = [] ∧ n = [] then none else some (dedupFirst (o ++ n))

/-- The in-place update applied when a record `p` collides with an `existing`
record under the same dedup key (lines 538-556 of `MultiKeywords_test_v1.py`):
source union (append with `"+"` unless already a substring), pmid and abstract
backfill when the existing value is falsy, and `pub_types` union. -/
def mergeInto (existing p : Paper) : Paper :=
  let e1 := if strContains existing.source p.source then existing
            else { existing with source := existing.source ++ "+" ++ p.source }
  let e2 := if !optTruthy e1.pmid && optTruthy p.pmid then { e1 with pmid := p.pmid } else e1
  let e3 := if !optTruthy e2.abstract && optTruthy p.abstract
            then { e2 with abstract := p.abstract } else e2
  { e3 with pub_types := mergeTypes e3.pub_types p.pub_types }

/-- Replace (in place, preserving position) the first entry with the given key
by the merge of its record with `p` — the effect of `existing = merged[key];
existing[...] = ...` on an insertion-ordered dict. -/
def updateFirst (key : String) (p : Paper) : List (String × Paper) → List (String × Paper)
  | [] => []
  | kv :: rest =>
      if kv.1 = key then (kv.1, mergeInto kv.2 p) :: rest
      else kv :: updateFirst key p rest

/-- One step of the dedup loop: `if key in merged: ...update... else:
merged[key] = dict(p)` on the insertion-ordered dict. -/
def insertPaper (m : List (String × Paper)) (p : Paper) : List (String × Paper) :=
  let key := dedupKey p
  if (m.lookup key).isSome then updateFirst key p m else m ++ [(key, p)]

/-- The scored list built inside `merge_and_score`:
`(score_title(p["title"], query), safe_year_to_int(p["year"]), p)` per merged
record, in mapping insertion order. -/
def scoredOf (merged : List (String × Paper)) (query : String) : List (Nat × Int × Paper) :=
  merged.map (fun kv => (score_title kv.2.title query, safe_year_to_int kv.2.year, kv.2))

/-- The total preorder corresponding to Python's sort key
`(-score, -year_int)` : higher score first, then higher year. -/
def rankLE (a b : Nat × Int × Paper) : Bool :=
  decide (b.1 < a.1) || (a.1 == b.1 && decide (b.2.1 ≤ a.2.1))

/-- Python slicing `l[:n]`, including the negative-`n` case
(`l[:-k]` drops the last `k` elements). -/
def pySlice (l : List α) (n : Int) : List α :=
  if 0 ≤ n then l.take n.toNat else l.take (l.length - (-n).toNat)

/-- The rank stage of `merge_and_score` (lines 562-591): score every merged
record, stable-sort by `(-score, -year_int)`, slice to `top_n`, and project
back to the records. -/
def rankPapers (merged : List (String × Paper)) (query : String) (top_n : Int) : List Paper :=
  (pySlice ((scoredOf merged query).mergeSort rankLE) top_n).map (fun t => t.2.2)

/-- `merge_and_score` from the source: concatenate the two providers' lists
(Crossref first), dedup into an insertion-ordered mapping, then rank. -/
def merge_and_score (papers_crossref papers_pubmed : List Paper) (query : String)
    (top_n : Int) : List Paper :=
  let all_papers := papers_crossref ++ papers_pubmed
  if all_papers = [] then []
  else rankPapers (all_papers.foldl insertPaper []) query top_n

/-- One entry of the EFetch result map (`{"abstract": ..., "pub_types": ...}`),
with optional fields so that arbitrary injected fetch behaviors are covered. -/
structure FetchInfo where
  abstract : Option String
  pub_types : Option (List String)
deriving DecidableEq, Repr

/-- The PMIDs requested for enrichment: `sorted({p["pmid"] for p in papers if
p.get("pmid") and "PubMed" in p.get("source", "")})`. -/
def collectPmids (papers : List Paper) : List String :=
  (dedupFirst ((papers.filter
      (fun p => optTruthy p.pmid && strContains p.source "PubMed")).map
      (fun p => p.pmid.getD ""))).mergeSort (fun a b => decide (a ≤ b))

/-- The per-record enrichment update of `add_abstracts_to_papers`: overwrite
the abstract only when the fetched abstract is truthy, then union `pub_types`. -/
def applyInfo (p : Paper) (info : FetchInfo) : Paper :=
  let q := if optTruthy info.abstract then { p with abstract := info.abstract } else p
  { q with pub_types := mergeTypes q.pub_types info.pub_types }

/-- `add_abstracts_to_papers` with the EFetch call abstracted into `fetchFn`
(the source calls `fetch_pubmed_abstracts`, which returns `{}` on any network
or parse failure): collect PMIDs, return the input unchanged when none, else
fetch once and update exactly the records whose truthy pmid resolves in the
returned map. -/
def add_abstracts_to_papers (fetchFn : List String → List (String × FetchInfo))
    (papers : List Paper) : List Paper :=
  let pmids := collectPmids papers
  if pmids = [] then papers
  else
    let info_map := fetchFn pmids
    papers.map (fun p =>
      if optTruthy p.pmid then
        match info_map.lookup (p.pmid.getD "") with
        | some info => applyInfo p info
        | none => p
      else p)

/-- `guess_article_type` from the source: case-insensitive substring rules over
the record's `pub_types`, in fixed priority order; first tag verbatim when no
rule matches; `"(unknown)"` when there are no tags. -/
def guess_article_type (paper : Paper) : String :=
  let pub_types := paper.pub_types.getD []
  let pts_lower := pub_types.map pyLower
  if pts_lower.any (fun pt => strContains pt "meta-analysis") then "Meta-analysis"
  else if pts_lower.any (fun pt => strContains pt "systematic review") then "Systematic review"
  else if pts_lower.any (fun pt => strContains pt "review") then "Review"
  else if pts_lower.any (fun pt => strContains pt "randomized controlled trial") then
    "Randomized controlled trial"
  else if pts_lower.any (fun pt => strContains pt "clinical trial") then "Clinical trial"
  else if pts_lower.any (fun pt => strContains pt "case reports")
          || pts_lower.any (fun pt => strContains pt "case report") then "Case report"
  else if pts_lower.any (fun pt => strContains pt "editorial") then "Editorial"
  else if pts_lower.any (fun pt => strContains pt "letter") then "Letter"
  else if pts_lower.any (fun pt => strContains pt "comment") then "Comment"
  else match pub_types with
       | [] => "(unknown)"
       | t :: _ => t

/-- The spec's ordered priority rule list for the article-type classifier
(pattern, label), highest priority first. -/
def typeRules : List (String × String) :=
  [("meta-analysis", "Meta-analysis"),
   ("systematic review", "Systematic review"),
   ("review", "Review"),
   ("randomized controlled trial", "Randomized controlled trial"),
   ("clinical trial", "Clinical trial"),
   ("case report", "Case report"),
   ("editorial", "Editorial"),
   ("letter", "Letter"),
   ("comment", "Comment")]

/-- Classifier stated the spec's way ("first matching rule wins" over
`typeRules`, then first tag verbatim, then the `"(unknown)"` sentinel), to be
proved equal to the source's `guess_article_type`. -/
def classifySpec (tags : List String) : String :=
  typeRules.foldr
    (fun r acc => if tags.any (fun t => strContains (pyLower t) r.1) then r.2 else acc)
    (match tags with
     | [] => "(unknown)"
     | t :: _ => t)

/-! ### Basic facts about the string utilities -/

theorem str_eq_empty_iff {s : String} : s = "" ↔ s.data = [] := by
  constructor
  · intro h; rw [h]
  · intro h; apply String.ext; rw [h]

theorem strContains_iff {t w : String} : strContains t w = true ↔ w.data <:+: t.data := by
  constructor
  · intro h
    simp only [strContains, List.any_eq_true, List.mem_range] at h
    obtain ⟨i, _, hp⟩ := h
    rw [ List.isPrefixOf_iff_prefix] at hp
    exact hp.isInfix.trans (List.drop_suffix i t.data).isInfix
  · intro h
    obtain ⟨s, u, hsu⟩ := h
    simp only [strContains, List.any_eq_true, List.mem_range]
    refine ⟨s.length, ?_, ?_⟩
    · have hl := congrArg List.length hsu
      simp only [List.length_append] at hl
      omega
    · rw [ List.isPrefixOf_iff_prefix]
      have hd : t.data.drop s.length = w.data ++ u := by
        rw [← hsu, List.append_assoc, List.drop_left]
      rw [hd]
      exact List.prefix_append _ _

theorem strContains_refl (s : String) : strContains s s = true :=
  strContains_iff.mpr (List.infix_refl _)

theorem strContains_empty_right (t : String) : strContains t "" = true :=
  strContains_iff.mpr List.nil_infix

theorem strContains_empty_left {w : String} (h : w ≠ "") : strContains "" w = false := by
  rw [Bool.eq_false_iff]
  intro hc
  rw [strContains_iff] at hc
  have : w.data = [] := List.infix_nil.mp hc
  exact h (str_eq_empty_iff.mpr this)

theorem strContains_of_infix {t w v : String} (h : v.data <:+: w.data)
    (hw : strContains t w = true) : strContains t v = true :=
  strContains_iff.mpr (h.trans (strContains_iff.mp hw))

theorem pyLower_data (s : String) : (pyLower s).data = s.data.map Char.toLower := rfl

theorem pyLower_ne_empty {s : String} (h : s ≠ "") : pyLower s ≠ "" := by
  intro hc
  apply h
  rw [str_eq_empty_iff] at hc ⊢
  rw [pyLower_data] at hc
  exact List.map_eq_nil_iff.mp hc

theorem mem_pySplitWs_ne_empty {s w : String} (h : w ∈ pySplitWs s) : w ≠ "" := by
  simp only [pySplitWs, List.mem_filter, decide_eq_true_eq] at h
  exact h.2

/-! ### The ranking order is a total preorder -/

theorem rankLE_total (a b : Nat × Int × Paper) : rankLE a b || rankLE b a := by
  simp only [rankLE, Bool.or_eq_true, Bool.and_eq_true, decide_eq_true_eq, beq_iff_eq]
  omega

theorem rankLE_trans (a b c : Nat × Int × Paper) (h1 : rankLE a b) (h2 : rankLE b c) :
    rankLE a c := by
  simp only [rankLE, Bool.or_eq_true, Bool.and_eq_true, decide_eq_true_eq, beq_iff_eq] at h1 h2 ⊢
  omega

/-! ### dedupFirst : membership, no-duplicates, split over append -/

theorem mem_dedupFirstAux {x : String} :
    ∀ {l seen : List String}, x ∈ dedupFirstAux seen l ↔ x ∈ l ∧ x ∉ seen := by
  intro l
  induction l with
  | nil => intro seen; simp [dedupFirstAux]
  | cons a l ih =>
    intro seen
    simp only [dedupFirstAux]
    by_cases h : a ∈ seen
    · rw [if_pos h, ih]
      simp only [List.mem_cons]
      constructor
      · rintro ⟨hx, hs⟩; exact ⟨Or.inr hx, hs⟩
      · rintro ⟨hx | hx, hs⟩
        · exact absurd (by rw [hx]; exact h) hs
        · exact ⟨hx, hs⟩
    · rw [if_neg h]
      simp only [List.mem_cons, ih]
      constructor
      · rintro (rfl | ⟨hx, hs⟩)
        · exact ⟨Or.inl rfl, h⟩
        · exact ⟨Or.inr hx, fun hc => hs (Or.inr hc)⟩
      · rintro ⟨rfl | hx, hs⟩
        · exact Or.inl rfl
        · by_cases hxa : x = a
          · exact Or.inl hxa
          · exact Or.inr ⟨hx, by simp [List.mem_cons, hxa, hs]⟩

theorem nodup_dedupFirstAux : ∀ {l seen : List String}, (dedupFirstAux seen l).Nodup := by
  intro l
  induction l with
  | nil => intro seen; simp [dedupFirstAux]
  | cons a l ih =>
    intro seen
    simp only [dedupFirstAux]
    by_cases h : a ∈ seen
    · rw [if_pos h]; exact ih
    · rw [if_neg h]
      refine List.nodup_cons.mpr ⟨?_, ih⟩
      rw [mem_dedupFirstAux]
      rintro ⟨-, hs⟩
      exact hs (List.mem_cons_self a seen)

theorem dedupFirstAux_congr :
    ∀ {l s₁ s₂ : List String}, (∀ x, x ∈ s₁ ↔ x ∈ s₂) →
      dedupFirstAux s₁ l = dedupFirstAux s₂ l := by
  intro l
  induction l with
  | nil => intro s₁ s₂ _; rfl
  | cons a l ih =>
    intro s₁ s₂ h
    simp only [dedupFirstAux]
    by_cases ha : a ∈ s₁
    · rw [if_pos ha, if_pos ((h a).mp ha)]
      exact ih h
    · rw [if_neg ha, if_neg (fun hc => ha ((h a).mpr hc))]
      refine congrArg (a :: ·) (ih ?_)
      intro x
      simp only [List.mem_cons]
      exact or_congr Iff.rfl (h x)

theorem dedupFirstAux_append :
    ∀ (xs : List String) {seen} (ys : List String),
      dedupFirstAux seen (xs ++ ys) =
        dedupFirstAux seen xs ++ dedupFirstAux (xs ++ seen) ys := by
  intro xs
  induction xs with
  | nil => intro seen ys; simp [dedupFirstAux]
  | cons x xs ih =>
    intro seen ys
    by_cases hx : x ∈ seen
    · simp only [List.cons_append, dedupFirstAux, if_pos hx, List.append_eq]
      rw [ih]
      refine congrArg _ (dedupFirstAux_congr ?_)
      intro y
      simp only [List.mem_append, List.mem_cons]
      constructor
      · tauto
      · rintro (rfl | hy)
        · exact Or.inr hx
        · exact hy
    · simp only [List.cons_append, dedupFirstAux, if_neg hx, List.append_eq]
      rw [ih]
      refine congrArg (x :: ·)
        (congrArg (dedupFirstAux (x :: seen) xs ++ ·) (dedupFirstAux_congr ?_))
      intro y
      simp only [List.mem_append, List.mem_cons]
      tauto

theorem dedupFirst_append (xs ys : List String) :
    dedupFirst (xs ++ ys) = dedupFirst xs ++ dedupFirstAux xs ys := by
  rw [dedupFirst, dedupFirstAux_append, dedupFirst]
  refine congrArg _ (dedupFirstAux_congr ?_)
  intro x
  simp

theorem mem_dedupFirst {x : String} {l : List String} : x ∈ dedupFirst l ↔ x ∈ l := by
  rw [dedupFirst, mem_dedupFirstAux]
  simp

theorem nodup_dedupFirst (l : List String) : (dedupFirst l).Nodup :=
  nodup_dedupFirstAux

/-! ### Score facts needed for C9/C10 -/

theorem score_title_none_eq (q : String) : score_title none q = score_title (some "") q := rfl

theorem score_title_none_of_ne_empty {q : String} (h : q ≠ "") : score_title none q = 0 := by
  have hl : pyLower "" = "" := rfl
  have h1 : strContains (pyLower "") (pyLower q) = false := by
    rw [hl]
    exact strContains_empty_left (pyLower_ne_empty h)
  have h2 : (pySplitWs (pyLower q)).filter (fun w => strContains (pyLower "") w) = [] := by
    rw [List.filter_eq_nil_iff]
    intro w hw
    have hne : w ≠ "" := mem_pySplitWs_ne_empty hw
    rw [hl, strContains_empty_left hne]
    simp
  simp only [score_title, Option.getD_none, h1, h2, Bool.false_eq_true, if_false,
    List.length_nil]

theorem score_title_empty_query (t : Option String) : score_title t "" = 2 := by
  have h1 : strContains (pyLower (t.getD "")) (pyLower "") = true := strContains_empty_right _
  have h2 : pySplitWs (pyLower "") = [] := by decide
  simp only [score_title, h1, h2, if_true, List.filter_nil, List.length_nil]

/-! ### Facts relating scored tuples to their papers -/

theorem scoredOf_fact {m : List (String × Paper)} {q : String} {x : Nat × Int × Paper}
    (hx : x ∈ scoredOf m q) :
    x.1 = score_title x.2.2.title q ∧ x.2.1 = safe_year_to_int x.2.2.year := by
  simp only [scoredOf, List.mem_map] at hx
  obtain ⟨kv, -, rfl⟩ := hx
  exact ⟨rfl, rfl⟩

theorem pySlice_sublist (l : List α) (n : Int) : (pySlice l n).Sublist l := by
  unfold pySlice
  split <;> exact List.take_sublist _ _

/-- C2: for every title and query the score is 2 when the case-folded query
occurs contiguously in the case-folded title (else 0), plus the number of
non-empty whitespace tokens of the case-folded query occurring as substrings
of the case-folded title; a title exactly equal to the three-token query
scores 2 + 3 = 5. -/
theorem C2_score_formula :
    (∀ (t : Option String) (q : String),
        score_title t q =
          (if strContains (pyLower (t.getD "")) (pyLower q) then 2 else 0) +
            ((pySplitWs (pyLower q)).filter
              (fun w => strContains (pyLower (t.getD "")) w)).length) ∧
      score_title (some "organic electrochemical transistors")
        "organic electrochemical transistors" = 5 :=
  ⟨fun _ _ => rfl, by decide⟩

/-- C9: `score_title` is a total function (the embedding never raises); a
missing title is treated as the empty string, scores 0 on every non-empty
query, and scores 2 (≠ 0) exactly when the query is empty as well. -/
theorem C9_missing_title_score :
    (∀ q : String, score_title none q = score_title (some "") q) ∧
      (∀ q : String, q ≠ "" → score_title none q = 0) ∧
      score_title none "" = 2 :=
  ⟨score_title_none_eq, fun _ h => score_title_none_of_ne_empty h, by decide⟩

/-- Witness for C9 at the concrete non-empty query `"organic"`. -/
theorem C9_missing_title_score_witness :
    "organic" ≠ "" ∧ score_title none "organic" = 0 :=
  ⟨by decide, C9_missing_title_score.2.1 "organic" (by decide)⟩

/-- C10: with the empty query every title scores exactly 2 (the empty phrase
bonus fires and there are no tokens), every scored record in the pipeline gets
score 2, and the ranked output is ordered by descending parsed year. -/
theorem C10_empty_query_degenerates :
    (∀ t : Option String, score_title t "" = 2) ∧
      (∀ (m : List (String × Paper)) (x : Nat × Int × Paper), x ∈ scoredOf m "" → x.1 = 2) ∧
      (∀ (m : List (String × Paper)) (n : Int),
        (rankPapers m "" n).Pairwise
          (fun p p' => safe_year_to_int p'.year ≤ safe_year_to_int p.year)) := by
  have hscore2 : ∀ (m : List (String × Paper)) (x : Nat × Int × Paper),
      x ∈ scoredOf m "" → x.1 = 2 := by
    intro m x hx
    rw [(scoredOf_fact hx).1]
    exact score_title_empty_query _
  refine ⟨score_title_empty_query, hscore2, ?_⟩
  intro m n
  have hsorted : ((scoredOf m "").mergeSort rankLE).Pairwise (fun a b => rankLE a b = true) :=
    List.sorted_mergeSort rankLE_trans rankLE_total _
  have hslice := pySlice_sublist ((scoredOf m "").mergeSort rankLE) n
  have hsorted2 := hsorted.sublist hslice
  have hmem : ∀ x ∈ pySlice ((scoredOf m "").mergeSort rankLE) n, x ∈ scoredOf m "" := by
    intro x hx
    exact List.mem_mergeSort.mp (hslice.subset hx)
  rw [rankPapers, List.pairwise_map]
  refine hsorted2.imp_of_mem ?_
  intro a b ha hb hle
  have ha2 := hscore2 m a (hmem a ha)
  have hb2 := hscore2 m b (hmem b hb)
  have hay := (scoredOf_fact (hmem a ha)).2
  have hby := (scoredOf_fact (hmem b hb)).2
  rw [← hay, ← hby]
  simp only [rankLE, Bool.or_eq_true, Bool.and_eq_true, decide_eq_true_eq, beq_iff_eq] at hle
  omega

/-- Witness for C10 at a concrete scored mapping. -/
theorem C10_empty_query_degenerates_witness :
    (2, (2020 : Int),
      ({ title := some "t", doi := some "d", url := "u", authors := "a", year := "2020",
         journal := "j", query := "", source := "Crossref", pmid := none, abstract := none,
         abstract_ja := none, pub_types := none } : Paper)).1 = 2 :=
  C10_empty_query_degenerates.2.1
    [("d", { title := some "t", doi := some "d", url := "u", authors := "a", year := "2020",
             journal := "j", query := "", source := "Crossref", pmid := none, abstract := none,
             abstract_ja := none, pub_types := none })]
    _ (by decide)

/-! ### Merge-step facts -/

theorem mergeInto_source (e p : Paper) :
    (mergeInto e p).source =
      if strContains e.source p.source then e.source else e.source ++ "+" ++ p.source := by
  simp only [mergeInto]
  split
  · split <;> split <;> rfl
  · split <;> split <;> rfl

theorem mergeInto_self_source (r : Paper) : (mergeInto r r).source = r.source := by
  rw [mergeInto_source, if_pos (strContains_refl r.source)]

/-- C5: merging an input in which the same record occurs twice (same DOI, same
provider source, one copy per provider list) yields exactly one mapping entry,
under the record's dedup key, whose `source` field is the record's original
source (the provider name is already a substring, so no `"+"` suffix is
appended). -/
theorem C5_merge_idempotent (r : Paper) :
    ([r] ++ [r]).foldl insertPaper [] = [(dedupKey r, mergeInto r r)] ∧
      (mergeInto r r).source = r.source := by
  refine ⟨?_, mergeInto_self_source r⟩
  simp only [List.cons_append, List.nil_append, List.foldl]
  have h1 : insertPaper [] r = [(dedupKey r, r)] := by
    simp [insertPaper]
  rw [h1]
  simp only [insertPaper, List.lookup_cons_self, Option.isSome_some, if_true, updateFirst,
    if_pos rfl]

/-! ### Dedup mapping facts for C1 -/

theorem lookup_updateFirst_isSome {key k : String} {p : Paper} :
    ∀ {m : List (String × Paper)},
      ((updateFirst key p m).lookup k).isSome = (m.lookup k).isSome := by
  intro m
  induction m with
  | nil => rfl
  | cons kv rest ih =>
    simp only [updateFirst]
    by_cases h : kv.1 = key
    · rw [if_pos h]
      rcases kv with ⟨a, b⟩
      simp only [List.lookup_cons]
      by_cases hk : k == a <;> simp [hk]
    · rw [if_neg h]
      rcases kv with ⟨a, b⟩
      simp only [List.lookup_cons]
      by_cases hk : k == a <;> simp [hk, ih]

theorem lookup_insertPaper_self (m : List (String × Paper)) (p : Paper) :
    ((insertPaper m p).lookup (dedupKey p)).isSome := by
  simp only [insertPaper]
  by_cases h : (m.lookup (dedupKey p)).isSome
  · rw [if_pos h, lookup_updateFirst_isSome]
    exact h
  · rw [if_neg h, List.lookup_append]
    have hm : m.lookup (dedupKey p) = none := by
      cases hm : m.lookup (dedupKey p)
      · rfl
      · exact absurd (by simp [hm]) h
    rw [hm]
    simp

theorem lookup_insertPaper_mono {m : List (String × Paper)} {k : String} (p : Paper)
    (h : (m.lookup k).isSome) : ((insertPaper m p).lookup k).isSome := by
  simp only [insertPaper]
  by_cases hp : (m.lookup (dedupKey p)).isSome
  · rw [if_pos hp, lookup_updateFirst_isSome]
    exact h
  · rw [if_neg hp, List.lookup_append]
    obtain ⟨v, hv⟩ := Option.isSome_iff_exists.mp h
    rw [hv]
    simp

theorem foldl_insertPaper_mono :
    ∀ (ps : List Paper) (m : List (String × Paper)) (k : String),
      (m.lookup k).isSome → (((ps.foldl insertPaper m).lookup k).isSome) := by
  intro ps
  induction ps with
  | nil => exact fun m k h => h
  | cons a ps ih => exact fun m k h => ih _ _ (lookup_insertPaper_mono a h)

theorem foldl_insertPaper_key_present :
    ∀ (ps : List Paper) (m : List (String × Paper)) (p : Paper), p ∈ ps →
      ((ps.foldl insertPaper m).lookup (dedupKey p)).isSome := by
  intro ps
  induction ps with
  | nil => intro m p h; cases h
  | cons a ps ih =>
    intro m p h
    rcases List.mem_cons.mp h with rfl | h
    · exact foldl_insertPaper_mono ps _ _ (lookup_insertPaper_self m p)
    · exact ih _ p h

theorem mem_updateFirst {key : String} {p : Paper} :
    ∀ {m : List (String × Paper)} {kv}, kv ∈ updateFirst key p m → kv ∈ m ∨ kv.1 = key := by
  intro m
  induction m with
  | nil => intro kv h; cases h
  | cons a rest ih =>
    intro kv h
    simp only [updateFirst] at h
    by_cases ha : a.1 = key
    · rw [if_pos ha] at h
      rcases List.mem_cons.mp h with rfl | h
      · exact Or.inr ha
      · exact Or.inl (List.mem_cons_of_mem _ h)
    · rw [if_neg ha] at h
      rcases List.mem_cons.mp h with rfl | h
      · exact Or.inl (List.mem_cons_self _ _)
      · rcases ih h with h | h
        · exact Or.inl (List.mem_cons_of_mem _ h)
        · exact Or.inr h

theorem mem_insertPaper {m : List (String × Paper)} {p : Paper} {kv : String × Paper}
    (h : kv ∈ insertPaper m p) : kv ∈ m ∨ kv.1 = dedupKey p := by
  simp only [insertPaper] at h
  by_cases hp : (m.lookup (dedupKey p)).isSome
  · rw [if_pos hp] at h
    exact mem_updateFirst h
  · rw [if_neg hp] at h
    rcases List.mem_append.mp h with h | h
    · exact Or.inl h
    · rcases List.mem_singleton.mp h with rfl
      exact Or.inr rfl

theorem foldl_insertPaper_key_from :
    ∀ (ps : List Paper) (m : List (String × Paper)) (kv : String × Paper),
      kv ∈ ps.foldl insertPaper m → kv ∈ m ∨ ∃ p ∈ ps, kv.1 = dedupKey p := by
  intro ps
  induction ps with
  | nil => exact fun m kv h => Or.inl h
  | cons a ps ih =>
    intro m kv h
    rcases ih _ _ h with h | ⟨p, hp, hk⟩
    · rcases mem_insertPaper h with h | h
      · exact Or.inl h
      · exact Or.inr ⟨a, List.mem_cons_self _ _, h⟩
    · exact Or.inr ⟨p, List.mem_cons_of_mem _ hp, hk⟩

/-- C1: every input record lands in the merged mapping under its dedup key
(lowercased DOI when present and not the sentinel, else lowercased title and
year), every mapping key comes from some input record's dedup key, and two
records whose DOIs differ only in letter case — the second provider's source
not already contained in the first's — merge into exactly one record whose
source is the first provider's name, `"+"`, and the second provider's name. -/
theorem C1_dedup_key_case_insensitive_doi :
    (∀ (ps : List Paper) (p : Paper), p ∈ ps →
        ((ps.foldl insertPaper []).lookup (dedupKey p)).isSome) ∧
      (∀ (ps : List Paper) (kv : String × Paper), kv ∈ ps.foldl insertPaper [] →
        ∃ p ∈ ps, kv.1 = dedupKey p) ∧
      (∀ (a b : Paper) (da db : String),
        a.doi = some da → b.doi = some db →
        da ≠ "" → da ≠ "(no DOI)" → db ≠ "" → db ≠ "(no DOI)" →
        pyLower da = pyLower db →
        strContains a.source b.source = false →
        ([a] ++ [b]).foldl insertPaper [] = [(pyLower da, mergeInto a b)] ∧
          (mergeInto a b).source = a.source ++ "+" ++ b.source) := by
  refine ⟨fun ps p h => foldl_insertPaper_key_present ps [] p h, ?_, ?_⟩
  · intro ps kv h
    rcases foldl_insertPaper_key_from ps [] kv h with h | h
    · cases h
    · exact h
  · intro a b da db ha hb hda1 hda2 hdb1 hdb2 hlow hsub
    have hka : dedupKey a = pyLower da := by
      simp [dedupKey, ha, hda1, hda2]
    have hkb : dedupKey b = pyLower da := by
      simp [dedupKey, hb, hdb1, hdb2, hlow]
    constructor
    · have h1 : insertPaper [] a = [(dedupKey a, a)] := by
        simp [insertPaper]
      have h2 : insertPaper [(dedupKey a, a)] b = [(dedupKey a, mergeInto a b)] := by
        have hk : dedupKey b = dedupKey a := by rw [hka, hkb]
        simp only [insertPaper, hk, List.lookup_cons_self, Option.isSome_some, if_true,
          updateFirst, if_pos rfl]
      show insertPaper (insertPaper [] a) b = [(pyLower da, mergeInto a b)]
      rw [h1, h2, hka]
    · rw [mergeInto_source, if_neg ?_]
      rw [hsub]
      simp

def recA_C1 : Paper :=
  { title := some "Organic electrochemical transistors for sensing", doi := some "10.1/x",
    url := "u1", authors := "A B", year := "2021", journal := "J", query := "q",
    source := "Crossref", pmid := none, abstract := none, abstract_ja := none,
    pub_types := some ["journal-article"] }

def recB_C1 : Paper :=
  { title := some "organic electrochemical transistors", doi := some "10.1/X",
    url := "u2", authors := "C D", year := "2021", journal := "J2", query := "q",
    source := "PubMed", pmid := some "11111", abstract := none, abstract_ja := none,
    pub_types := none }

/-- Witness for C1: the spec's scenario records (same DOI up to case, one from
each provider) merge into a single entry sourced `"Crossref+PubMed"`. -/
theorem C1_dedup_key_case_insensitive_doi_witness :
    ([recA_C1] ++ [recB_C1]).foldl insertPaper [] =
        [(pyLower "10.1/x", mergeInto recA_C1 recB_C1)] ∧
      (mergeInto recA_C1 recB_C1).source = "Crossref" ++ "+" ++ "PubMed" :=
  C1_dedup_key_case_insensitive_doi.2.2 recA_C1 recB_C1 "10.1/x" "10.1/X"
    rfl rfl (by decide) (by decide) (by decide) (by decide) (by decide) (by decide)

/-- The per-record ordering induced by Python's sort key `(-score, -year)`. -/
def paperKeyLE (q : String) (p p' : Paper) : Prop :=
  score_title p'.title q < score_title p.title q ∨
    (score_title p'.title q = score_title p.title q ∧
      safe_year_to_int p'.year ≤ safe_year_to_int p.year)

def pC3a : Paper :=
  { title := some "organic electrochemical transistors", doi := some "d1", url := "u",
    authors := "a", year := "2020", journal := "j", query := "q", source := "PubMed",
    pmid := none, abstract := none, abstract_ja := none, pub_types := none }

def pC3b : Paper :=
  { pC3a with doi := some "d2", year := "2019" }

def pC3c : Paper :=
  { pC3a with
    doi := some "d3"
    year := "2023"
    title := some "electrochemical organic transistors" }

/-- C3: the ranked output is ordered by score descending then parsed year
descending; a year string that does not parse as an integer (such as the
`"(n.d.)"` sentinel) counts as 0 for sorting while ranked records keep their
stored field values unmodified; records with equal sort keys keep their
mapping-insertion order (stability); and in the spec's scenario (scores
[5, 5, 3], years [2020, 2019, 2023], `top_n = 2`) the result is the 2020
record then the 2019 record, with the score-3 record excluded. -/
theorem C3_rank_order_stability :
    (∀ (m : List (String × Paper)) (q : String) (n : Int),
        (rankPapers m q n).Pairwise (paperKeyLE q)) ∧
      (safe_year_to_int "(n.d.)" = 0 ∧ ∀ s : String, pyInt? s = none → safe_year_to_int s = 0) ∧
      (∀ (m : List (String × Paper)) (q : String) (n : Int) (p : Paper),
        p ∈ rankPapers m q n → p ∈ m.map (fun kv => kv.2)) ∧
      (∀ (m : List (String × Paper)) (q : String) (a b : Nat × Int × Paper),
        [a, b].Sublist (scoredOf m q) → a.1 = b.1 → a.2.1 = b.2.1 →
        [a, b].Sublist ((scoredOf m q).mergeSort rankLE)) ∧
      rankPapers [("d1", pC3a), ("d2", pC3b), ("d3", pC3c)]
        "organic electrochemical transistors" 2 = [pC3a, pC3b] := by
  refine ⟨?_, ⟨by decide, fun s h => by simp [safe_year_to_int, h]⟩, ?_, ?_, ?_⟩
  · intro m q n
    have hsorted : ((scoredOf m q).mergeSort rankLE).Pairwise (fun a b => rankLE a b = true) :=
      List.sorted_mergeSort rankLE_trans rankLE_total _
    have hslice := pySlice_sublist ((scoredOf m q).mergeSort rankLE) n
    have hsorted2 := hsorted.sublist hslice
    have hmem : ∀ x ∈ pySlice ((scoredOf m q).mergeSort rankLE) n, x ∈ scoredOf m q :=
      fun x hx => List.mem_mergeSort.mp (hslice.subset hx)
    rw [rankPapers, List.pairwise_map]
    refine hsorted2.imp_of_mem ?_
    intro a b ha hb hle
    have hfa := scoredOf_fact (hmem a ha)
    have hfb := scoredOf_fact (hmem b hb)
    rw [paperKeyLE, ← hfa.1, ← hfb.1, ← hfa.2, ← hfb.2]
    simp only [rankLE, Bool.or_eq_true, Bool.and_eq_true, decide_eq_true_eq,
      beq_iff_eq] at hle
    omega
  · intro m q n p hp
    simp only [rankPapers, List.mem_map] at hp
    obtain ⟨t, ht, rfl⟩ := hp
    have ht2 : t ∈ scoredOf m q :=
      List.mem_mergeSort.mp ((pySlice_sublist _ n).subset ht)
    simp only [scoredOf, List.mem_map] at ht2
    obtain ⟨kv, hkv, rfl⟩ := ht2
    exact List.mem_map.mpr ⟨kv, hkv, rfl⟩
  · intro m q a b hsub h1 h2
    refine List.pair_sublist_mergeSort rankLE_trans rankLE_total ?_ hsub
    simp only [rankLE, Bool.or_eq_true, Bool.and_eq_true, decide_eq_true_eq, beq_iff_eq]
    omega
  · simp +decide [rankPapers, scoredOf, List.mergeSort, pySlice]

/-- Witness for C3: stability applied to two concrete equal-key records. -/
theorem C3_rank_order_stability_witness :
    [((5 : Nat), (2020 : Int), pC3a), (5, 2020, { pC3a with doi := some "dd" })].Sublist
      ((scoredOf [("d1", pC3a), ("dd", { pC3a with doi := some "dd" })]
          "organic electrochemical transistors").mergeSort rankLE) :=
  C3_rank_order_stability.2.2.2.1
    [("d1", pC3a), ("dd", { pC3a with doi := some "dd" })]
    "organic electrochemical transistors"
    (5, 2020, pC3a) (5, 2020, { pC3a with doi := some "dd" })
    (by decide) (by decide) (by decide)

def pC4a : Paper :=
  { title := some "t1", doi := some "a", url := "u", authors := "x", year := "2020",
    journal := "j", query := "q", source := "Crossref", pmid := none, abstract := none,
    abstract_ja := none, pub_types := none }

def pC4b : Paper :=
  { pC4a with doi := some "b", title := some "t2", year := "2021" }

/-- Counterexample to C4 as stated: `top_n = -1 ≤ 0` on a two-record mapping
returns one record (Python slicing `l[:-1]`), not the empty sequence. -/
theorem C4_counterexample_negative_top_n :
    ((-1 : Int) ≤ 0) ∧
      (rankPapers [("a", pC4a), ("b", pC4b)] "q" (-1)).length = 1 := by
  refine ⟨by decide, ?_⟩
  simp +decide [rankPapers, scoredOf, List.mergeSort, pySlice]

/-- C4 (amended): `rank` returns at most `top_n` records when `top_n ≥ 0`,
returns all records when fewer than `top_n` exist, returns the empty sequence
for `top_n = 0`, and for negative `top_n` follows Python slice semantics,
returning all but the last `min(|top_n|, count)` records. -/
theorem C4_truncation :
    (∀ (m : List (String × Paper)) (q : String) (n : Int), 0 ≤ n →
        (rankPapers m q n).length ≤ n.toNat) ∧
      (∀ (m : List (String × Paper)) (q : String) (n : Int), 0 ≤ n → m.length ≤ n.toNat →
        (rankPapers m q n).Perm (m.map (fun kv => kv.2))) ∧
      (∀ (m : List (String × Paper)) (q : String), rankPapers m q 0 = []) ∧
      (∀ (m : List (String × Paper)) (q : String) (n : Int), n < 0 →
        (rankPapers m q n).length = m.length - (-n).toNat) := by
  have hlen : ∀ (m : List (String × Paper)) (q : String),
      ((scoredOf m q).mergeSort rankLE).length = m.length := by
    intro m q
    rw [List.length_mergeSort, scoredOf, List.length_map]
  refine ⟨?_, ?_, ?_, ?_⟩
  · intro m q n hn
    simp only [rankPapers, List.length_map]
    rw [pySlice, if_pos hn]
    exact List.length_take_le _ _
  · intro m q n hn hle
    have hlen2 : ((scoredOf m q).mergeSort rankLE).length ≤ n.toNat := by
      rw [hlen]; exact hle
    simp only [rankPapers]
    rw [pySlice, if_pos hn, List.take_of_length_le hlen2]
    have hperm := (List.mergeSort_perm (scoredOf m q) rankLE).map (fun t => t.2.2)
    refine hperm.trans ?_
    rw [scoredOf, List.map_map]
    exact List.Perm.refl _
  · intro m q
    simp [rankPapers, pySlice]
  · intro m q n hn
    simp only [rankPapers, List.length_map]
    rw [pySlice, if_neg (by omega)]
    rw [List.length_take, hlen]
    omega

/-- Witness for C4 at a concrete one-record mapping and `top_n = 5`. -/
theorem C4_truncation_witness :
    (rankPapers [("a", pC4a)] "q" 5).Perm ([("a", pC4a)].map (fun kv => kv.2)) :=
  C4_truncation.2.1 [("a", pC4a)] "q" 5 (by decide) (by decide)

def pC6 : Paper :=
  { title := some "t", doi := some "d", url := "u", authors := "x", year := "2020",
    journal := "j", query := "q", source := "PubMed", pmid := some "11111",
    abstract := none, abstract_ja := none, pub_types := none }

/-- C6: when no ranked record carries a truthy PubMed pmid, enrichment returns
its input unchanged for every injected fetch function (so the fetch is never
consulted); and when the fetch returns no entry for any requested id (in
particular when it fails, i.e. returns the empty map), the output is
value-equal, field for field, to the input. -/
theorem C6_enrichment_noop :
    (∀ (papers : List Paper) (fetchFn : List String → List (String × FetchInfo)),
        (∀ p ∈ papers, ¬(optTruthy p.pmid = true ∧ strContains p.source "PubMed" = true)) →
        add_abstracts_to_papers fetchFn papers = papers) ∧
      (∀ (papers : List Paper) (fetchFn : List String → List (String × FetchInfo)),
        (∀ id ∈ collectPmids papers, (fetchFn (collectPmids papers)).lookup id = none) →
        (∀ kv ∈ fetchFn (collectPmids papers), kv.1 ∈ collectPmids papers) →
        add_abstracts_to_papers fetchFn papers = papers) := by
  have hnoopmap : ∀ (papers : List Paper),
      papers.map (fun p =>
        if optTruthy p.pmid then
          match ([] : List (String × FetchInfo)).lookup (p.pmid.getD "") with
          | some info => applyInfo p info
          | none => p
        else p) = papers := by
    intro papers
    rw [List.map_id'']
    intro p
    cases h : optTruthy p.pmid <;> simp [h, List.lookup_nil]
  constructor
  · intro papers fetchFn h
    have hfil : papers.filter
        (fun p => optTruthy p.pmid && strContains p.source "PubMed") = [] := by
      rw [List.filter_eq_nil_iff]
      intro p hp
      have := h p hp
      simp only [Bool.and_eq_true]
      tauto
    have hpm : collectPmids papers = [] := by
      rw [collectPmids, hfil]
      simp [dedupFirst, dedupFirstAux]
    simp [add_abstracts_to_papers, hpm]
  · intro papers fetchFn hnone hdom
    by_cases hpm : collectPmids papers = []
    · simp [add_abstracts_to_papers, hpm]
    · have hmap : fetchFn (collectPmids papers) = [] := by
        cases hfm : fetchFn (collectPmids papers) with
        | nil => rfl
        | cons kv rest =>
          exfalso
          rcases kv with ⟨k, v⟩
          have h1 : k ∈ collectPmids papers := by
            have := hdom (k, v) (by rw [hfm]; exact List.mem_cons_self _ _)
            exact this
          have h2 := hnone k h1
          rw [hfm, List.lookup_cons_self] at h2
          cases h2
      simp only [add_abstracts_to_papers, if_neg hpm, hmap]
      exact hnoopmap papers

/-- Witness for C6: a PubMed-sourced record with a pmid, and a fetch function
that returns the empty map (the failure behavior of `fetch_pubmed_abstracts`). -/
theorem C6_enrichment_noop_witness :
    add_abstracts_to_papers (fun _ => []) [pC6] = [pC6] :=
  C6_enrichment_noop.2 [pC6] (fun _ => [])
    (fun _ _ => List.lookup_nil) (fun _ h => absurd h (List.not_mem_nil _))

def pC7 : Paper :=
  { title := some "t", doi := some "d", url := "u", authors := "x", year := "2020",
    journal := "j", query := "q", source := "PubMed", pmid := some "1",
    abstract := none, abstract_ja := none, pub_types := some ["Systematic Review"] }

def pC7' : Paper :=
  { pC7 with title := some "another title", doi := some "d2" }

/-- C7: the article-type classifier is a pure function of the record's tag
list; it equals the spec's first-matching-rule classifier over the fixed
priority list `typeRules` (falling back to the first tag verbatim, then to
`"(unknown)"`); and a record tagged only `["Systematic Review"]` classifies as
`"Systematic review"`, not `"Review"`. -/
theorem C7_classifier_priority :
    (∀ p₁ p₂ : Paper, p₁.pub_types = p₂.pub_types →
        guess_article_type p₁ = guess_article_type p₂) ∧
      (∀ p : Paper, guess_article_type p = classifySpec (p.pub_types.getD [])) ∧
      classifySpec [] = "(unknown)" ∧
      guess_article_type pC7 = "Systematic review" := by
  refine ⟨?_, ?_, by decide, by decide⟩
  · intro p₁ p₂ h
    simp only [guess_article_type, h]
  · intro p
    have hmono : ∀ tags : List String,
        (tags.any (fun t => strContains (pyLower t) "case reports") ||
          tags.any (fun t => strContains (pyLower t) "case report")) =
        tags.any (fun t => strContains (pyLower t) "case report") := by
      intro tags
      cases hx : tags.any (fun t => strContains (pyLower t) "case reports")
      · simp
      · simp only [Bool.true_or]
        symm
        rw [List.any_eq_true] at hx ⊢
        obtain ⟨t, ht, hc⟩ := hx
        exact ⟨t, ht, strContains_of_infix (by decide) hc⟩
    simp only [guess_article_type, classifySpec, typeRules, List.foldr_cons, List.foldr_nil,
      List.any_map, Function.comp_def, hmono]

/-- Witness for C7: purity applied to two records differing everywhere except
in their tag lists. -/
theorem C7_classifier_priority_witness :
    guess_article_type pC7 = guess_article_type pC7' :=
  C7_classifier_priority.1 pC7 pC7' (by decide)

/-- C8: both the merge-time and the enrichment-time tag unions go through
`mergeTypes`; the union is `none` exactly when both operands are null/empty;
and any produced list has no duplicates and consists of the earlier record's
tags (first occurrences, in order) followed by the later tags not already
present. -/
theorem C8_tags_nodup_first_seen :
    (∀ e p : Paper, (mergeInto e p).pub_types = mergeTypes e.pub_types p.pub_types) ∧
      (∀ (p : Paper) (i : FetchInfo),
        (applyInfo p i).pub_types = mergeTypes p.pub_types i.pub_types) ∧
      (∀ o n : Option (List String),
        (mergeTypes o n = none ↔ (o.getD [] = [] ∧ n.getD [] = []))) ∧
      (∀ (o n : Option (List String)) (ts : List String),
        mergeTypes o n = some ts →
          ts.Nodup ∧
          ts = dedupFirst (o.getD []) ++ dedupFirstAux (o.getD []) (n.getD []) ∧
          (∀ x ∈ dedupFirstAux (o.getD []) (n.getD []), x ∈ n.getD [] ∧ x ∉ o.getD [])) := by
  refine ⟨?_, ?_, ?_, ?_⟩
  · intro e p
    simp only [mergeInto]
    split
    · split <;> split <;> rfl
    · split <;> split <;> rfl
  · intro p i
    simp only [applyInfo]
    split <;> rfl
  · intro o n
    by_cases h : o.getD [] = [] ∧ n.getD [] = []
    · simp only [mergeTypes, if_pos h]
      simp [h]
    · simp only [mergeTypes, if_neg h]
      simp [h]
  · intro o n ts h
    simp only [mergeTypes] at h
    split at h
    · cases h
    · simp only [Option.some.injEq] at h
      subst h
      refine ⟨nodup_dedupFirst _, dedupFirst_append _ _, ?_⟩
      intro x hx
      exact mem_dedupFirstAux.mp hx

/-- Witness for C8: the structural description applied to two concrete
overlapping tag lists. -/
theorem C8_tags_nodup_first_seen_witness :
    (["Review", "Comment", "Editorial"] : List String).Nodup ∧
      ["Review", "Comment", "Editorial"] =
        dedupFirst ((some ["Review", "Comment"] : Option (List String)).getD []) ++
          dedupFirstAux ((some ["Review", "Comment"] : Option (List String)).getD [])
            ((some ["Comment", "Editorial"] : Option (List String)).getD []) :=
  ⟨(C8_tags_nodup_first_seen.2.2.2 (some ["Review", "Comment"]) (some ["Comment", "Editorial"])
      ["Review", "Comment", "Editorial"] (by decide)).1,
   (C8_tags_nodup_first_seen.2.2.2 (some ["Review", "Comment"]) (some ["Comment", "Editorial"])
      ["Review", "Comment", "Editorial"] (by decide)).2.1⟩
